import Mathlib

set_option maxRecDepth 20000
set_option maxHeartbeats 1000000

/-!
Verification development for the Doclinger ingestion pipeline
(backend/src/app/core/chunker.py, utils.py, storage.py and
backend/src/app/api/routes_extract.py).

Python strings are modelled as `List Char` (ASCII subset of the Python
semantics: str.strip and the regex class \s are modelled over the six
ASCII whitespace characters).  Each definition mirrors one Python
function; the doc comment names the source function it embeds.
-/

/-- Python whitespace test restricted to ASCII: the characters matched by
str.strip() with no argument and by the regex class \s. -/
def isPyWs (c : Char) : Bool :=
  c == ' ' || c == '\t' || c == '\n' || c == '\r' || c == '\x0b' || c == '\x0c'

/-- Python str.strip(): drop leading and trailing whitespace. -/
def pyStrip (l : List Char) : List Char :=
  ((l.dropWhile isPyWs).reverse.dropWhile isPyWs).reverse

/-- chunker.approx_tokens: max(0, (len(text) + 3) // 4).  The outer max is a
no-op over Nat but is kept to mirror the source. -/
def approx_tokens (text : List Char) : Nat :=
  max 0 ((text.length + 3) / 4)

/-- Python text.split("\n"): every newline is a separator; the empty string
yields one empty piece. -/
def splitNl : List Char → List (List Char)
  | [] => [[]]
  | c :: rest =>
    if c = '\n' then [] :: splitNl rest
    else
      match splitNl rest with
      | p :: ps => (c :: p) :: ps
      | [] => [[c]]

/-- Trailing run of non-newline characters of a list (used to model the
greedy tail of the separator regex). -/
def takeTrailingNonNl (l : List Char) : List Char :=
  (l.reverse.takeWhile (fun c => !(c == '\n'))).reverse

/-- Scanner for re.split(r"\n\s*\n", text).  A maximal whitespace run is a
separator exactly when it contains at least two newlines; the separator
span runs from the first to the last newline of the run (leftmost match,
greedy \s*), so the run prefix before the first newline stays with the
previous piece and the run suffix after the last newline starts the next
piece.  `cur` is the piece being built, `wsbuf` the pending whitespace run. -/
def blankSplitGo : List Char → List Char → List Char → List (List Char)
  | [], cur, wsbuf =>
    if 2 ≤ wsbuf.count '\n' then
      [cur ++ wsbuf.takeWhile (fun c => !(c == '\n')), takeTrailingNonNl wsbuf]
    else
      [cur ++ wsbuf]
  | c :: rest, cur, wsbuf =>
    if isPyWs c then
      blankSplitGo rest cur (wsbuf ++ [c])
    else if 2 ≤ wsbuf.count '\n' then
      (cur ++ wsbuf.takeWhile (fun c => !(c == '\n'))) ::
        blankSplitGo rest (takeTrailingNonNl wsbuf ++ [c]) []
    else
      blankSplitGo rest (cur ++ wsbuf ++ [c]) []

/-- chunker.split_to_token_windows line 81: re.split(r"\n\s*\n", text). -/
def pyBlankSplit (text : List Char) : List (List Char) :=
  blankSplitGo text [] []

/-- Python "\n".join(lines). -/
def joinNl (lines : List (List Char)) : List Char :=
  List.intercalate ['\n'] lines

/-- Python "\n\n".join(paragraphs). -/
def joinBlank (paragraphs : List (List Char)) : List Char :=
  List.intercalate ['\n', '\n'] paragraphs

/-- chunker.iter_sections header regex: a line matches
r"^(#{1,6})\s+(.+)$" exactly when it starts with one to six hash marks
followed by a whitespace character and at least one further character
(the dot matches any character of the line, newlines being absent after
split).  group(2).strip() equals the stripped remainder after the hashes. -/
def headerMatch (line : List Char) : Option (Nat × List Char) :=
  let h := (line.takeWhile (fun c => c == '#')).length
  if 1 ≤ h ∧ h ≤ 6 then
    match line.drop h with
    | c :: _ :: _ => if isPyWs c then some (h, pyStrip (line.drop h)) else none
    | _ => none
  else none

/-- Fold state of chunker.iter_sections: the (level, title) stack, the
buffered lines of the current section and the sections already yielded. -/
structure SecState where
  currentPath : List (Nat × List Char)
  currentSectionLines : List (List Char)
  out : List (List Char × List Char)

/-- chunker.iter_sections path rendering: titles joined by " > " (the
conditional mirrors the `if current_path else ""` in the source). -/
def joinPath (path : List (Nat × List Char)) : List Char :=
  if path = [] then [] else List.intercalate (" > ".toList) (path.map Prod.snd)

/-- chunker.iter_sections.flush_section: none when the buffer is empty or
whitespace-only, otherwise the (path string, stripped text) pair. -/
def flushSection (path : List (Nat × List Char)) (buf : List (List Char)) :
    Option (List Char × List Char) :=
  if buf = [] then none
  else
    let text := pyStrip (joinNl buf)
    if text = [] then none else some (joinPath path, text)

/-- One line of the chunker.iter_sections loop: on a header line flush the
previous buffer, pop stack entries with level at least the new level, push
the new (level, title) and restart the buffer with the header line;
otherwise append the line to the buffer.  The source variable
current_level is assigned but never read and is omitted. -/
def sectionStep (st : SecState) (line : List Char) : SecState :=
  match headerMatch line with
  | some lt =>
    let out' :=
      match flushSection st.currentPath st.currentSectionLines with
      | some s => st.out ++ [s]
      | none => st.out
    let popped := (st.currentPath.reverse.dropWhile (fun q => decide (lt.1 ≤ q.1))).reverse
    { currentPath := popped ++ [lt], currentSectionLines := [line], out := out' }
  | none => { st with currentSectionLines := st.currentSectionLines ++ [line] }

/-- chunker.iter_sections as a pure function: the list of
(section path, section text) pairs yielded by the generator. -/
def iter_sections (markdown : List Char) : List (List Char × List Char) :=
  let st := (splitNl markdown).foldl sectionStep ⟨[], [], []⟩
  match flushSection st.currentPath st.currentSectionLines with
  | some s => st.out ++ [s]
  | none => st.out

/-- Fold state of chunker.split_to_token_windows: emitted windows, the
paragraph buffer `current` and the running token tally current_tokens. -/
structure WindowState where
  windows : List (List Char)
  current : List (List Char)
  currentTokens : Nat
deriving DecidableEq, Repr

/-- Sum of the per-paragraph token estimates of a paragraph list. -/
def tokensSum (ps : List (List Char)) : Nat :=
  (ps.map approx_tokens).sum

/-- chunker.split_to_token_windows overlap walk (lines 98 to 104): insert
paragraphs taken from the end of the emitted buffer at the front until the
collected token count reaches overlap_tokens.  The argument list is the
buffer reversed; the accumulated count is checked after each insertion. -/
def seedAux (overlap : Nat) (acc : Nat) : List (List Char) → List (List Char)
  | [] => []
  | p :: rest =>
    if overlap ≤ acc + approx_tokens p then [p]
    else p :: seedAux overlap (acc + approx_tokens p) rest

/-- Overlap seed for the next window: the shortest suffix of the emitted
buffer whose token sum reaches overlap_tokens (the whole buffer when the
sum never reaches it), in original order. -/
def overlapSeed (overlap : Nat) (current : List (List Char)) : List (List Char) :=
  (seedAux overlap 0 current.reverse).reverse

/-- chunker.split_to_token_windows emission (lines 93 to 96 and 110 to
113): append the stripped blank-line join of the buffer unless it strips
to nothing. -/
def emitWindow (windows : List (List Char)) (current : List (List Char)) : List (List Char) :=
  let windowText := pyStrip (joinBlank current)
  if windowText = [] then windows else windows ++ [windowText]

/-- One paragraph of the chunker.split_to_token_windows loop (lines 88 to
108): skip whitespace-only paragraphs; if adding the paragraph would push
the tally over target_tokens and the buffer is non-empty, emit the buffer
and reseed it with the overlap walk; then always append the paragraph and
its tokens. -/
def windowStep (target overlap : Nat) (st : WindowState) (para : List Char) : WindowState :=
  if pyStrip para = [] then st
  else
    let pt := approx_tokens para
    let st1 :=
      if target < st.currentTokens + pt ∧ st.current ≠ [] then
        let seed := overlapSeed overlap st.current
        { windows := emitWindow st.windows st.current
          current := seed
          currentTokens := tokensSum seed }
      else st
    { st1 with current := st1.current ++ [para], currentTokens := st1.currentTokens + pt }

/-- chunker.split_to_token_windows: empty or whitespace-only text yields no
window; text within the target budget yields its stripped self as the sole
window; otherwise the paragraph loop runs and the final buffer is flushed.
The source computes `step` on line 79 but never uses it; token budgets are
modelled as naturals.  File content stands in for the text argument. -/
def split_to_token_windows (text : List Char) (target overlap : Nat) : List (List Char) :=
  if text = [] ∨ pyStrip text = [] then []
  else if approx_tokens text ≤ target then
    if pyStrip text = [] then [] else [pyStrip text]
  else
    let st := (pyBlankSplit text).foldl (windowStep target overlap) ⟨[], [], 0⟩
    if st.current = [] then st.windows else emitWindow st.windows st.current

/-- One chunk record of the chunks.jsonl stream: id, text and the meta
object fields doc_id and section. -/
structure Chunk where
  id : List Char
  text : List Char
  metaDocId : List Char
  metaSection : List Char
deriving DecidableEq, Repr

/-- Decimal rendering of a chunk index, as Python str(int). -/
def natChars (n : Nat) : List Char :=
  (Nat.repr n).toList

/-- chunker.generate_chunks_jsonl section pass (lines 140 to 156): for each
section, window it and keep the (section path, stripped window) pairs,
skipping windows that strip to nothing. -/
def sectionWindowPairs (markdown : List Char) (target overlap : Nat) :
    List (List Char × List Char) :=
  (iter_sections markdown).flatMap fun s =>
    (split_to_token_windows s.2 target overlap).filterMap fun w =>
      if pyStrip w = [] then none else some (s.1, pyStrip w)

/-- chunker.generate_chunks_jsonl fallback pass (lines 159 to 174): the
whole document re-windowed as one section with empty path. -/
def fallbackPairs (markdown : List Char) (target overlap : Nat) :
    List (List Char × List Char) :=
  (split_to_token_windows markdown target overlap).filterMap fun w =>
    if pyStrip w = [] then none else some (([] : List Char), pyStrip w)

/-- chunker.generate_chunks_jsonl modelled on the markdown content: the
file read, directory creation and JSONL serialization are abstracted away
and the function returns the list of records written, in order.  The
fallback pass runs exactly when the section pass emitted zero chunks and
the markdown does not strip to nothing; ids are doc_id, an underscore and
the dense zero-based emission index. -/
def generate_chunks_jsonl (markdown docId : List Char) (target overlap : Nat) : List Chunk :=
  let pairs := sectionWindowPairs markdown target overlap
  let allPairs :=
    if pairs.length = 0 ∧ pyStrip markdown ≠ [] then fallbackPairs markdown target overlap
    else pairs
  allPairs.mapIdx fun i p =>
    { id := docId ++ '_' :: natChars i
      text := p.2
      metaDocId := docId
      metaSection := p.1 }

/-- Last index of a character in a list, if any (Python str.rfind). -/
def lastIdxOf (c : Char) : List Char → Option Nat
  | [] => none
  | x :: xs =>
    match lastIdxOf c xs with
    | some i => some (i + 1)
    | none => if x = c then some 0 else none

/-- Python pathlib PurePath stem for a file name without directory
separators: drop the part from the last dot on, when that dot is neither
the first nor the last character. -/
def pyStem (name : List Char) : List Char :=
  match lastIdxOf '.' name with
  | some i => if 0 < i ∧ i + 1 < name.length then name.take i else name
  | none => name

/-- Membership of a character in the class [A-Za-z0-9._-]. -/
def isAllowedStemChar (c : Char) : Bool :=
  ('A' ≤ c && c ≤ 'Z') || ('a' ≤ c && c ≤ 'z') || ('0' ≤ c && c ≤ '9') ||
    c == '.' || c == '_' || c == '-'

/-- ASCII letter-or-digit test (models Python str.isalnum on this subset). -/
def isAsciiAlnum (c : Char) : Bool :=
  ('A' ≤ c && c ≤ 'Z') || ('a' ≤ c && c ≤ 'z') || ('0' ≤ c && c ≤ '9')

/-- Collapse every run of underscores to a single underscore
(re.sub of one or more underscores to one). -/
def collapseU : List Char → List Char
  | [] => []
  | [c] => [c]
  | c :: d :: rest =>
    if c = '_' ∧ d = '_' then collapseU (d :: rest)
    else c :: collapseU (d :: rest)

/-- Python s.strip(single character): drop that character from both ends. -/
def stripChar (c : Char) (l : List Char) : List Char :=
  ((l.dropWhile (· == c)).reverse.dropWhile (· == c)).reverse

/-- utils.sanitize_stem: stem of the filename, stripped; "document" when
the stripped stem is empty or starts with a dot; else spaces to
underscores, characters outside [A-Za-z0-9._-] to underscores, underscore
runs collapsed, edge underscores stripped; "document" when nothing
alphanumeric remains; truncated to 80 characters.  Call sites pass a bare
file name, so the pathlib name extraction is the identity here. -/
def sanitize_stem (filename : List Char) : List Char :=
  let stem := pyStrip (pyStem filename)
  if stem = [] ∨ stem.head? = some '.' then "document".toList
  else
    let s1 := stem.map fun c => if c = ' ' then '_' else c
    let s2 := s1.map fun c => if isAllowedStemChar c then c else '_'
    let s3 := stripChar '_' (collapseU s2)
    if s3 = [] ∨ ¬ s3.any isAsciiAlnum then "document".toList
    else s3.take 80

/-- Prefix derivation transcribed from the claim wording for C8: strip the
extension, replace whitespace with underscores, keep only the characters
[A-Za-z0-9._-], collapse repeated underscores, truncate to 80 characters,
and map an empty or all-punctuation result to "document". -/
def specSanitizeClaim (filename : List Char) : List Char :=
  let stem := pyStem filename
  let s1 := stem.map fun c => if isPyWs c then '_' else c
  let s2 := s1.filter isAllowedStemChar
  let s3 := collapseU s2
  let s4 := s3.take 80
  if s4 = [] ∨ ¬ s4.any isAsciiAlnum then "document".toList else s4

/-- Prefix derivation following the amended claim for C8: one pass maps
every character outside [A-Za-z0-9._-] (whitespace included) to an
underscore; the whitespace-stripped stem is taken first, a stem that is
empty or starts with a dot maps to "document", underscore runs are
collapsed and edge underscores stripped, a result without an alphanumeric
maps to "document", and the result is truncated to 80 characters. -/
def specSanitizeAmended (filename : List Char) : List Char :=
  let stem := pyStrip (pyStem filename)
  if stem = [] ∨ stem.head? = some '.' then "document".toList
  else
    let s := stripChar '_' (collapseU (stem.map fun c => if isAllowedStemChar c then c else '_'))
    if s = [] ∨ ¬ s.any isAsciiAlnum then "document".toList
    else s.take 80

/-- Substring test for ".." (Python: ".." in filename). -/
def containsDotDot : List Char → Bool
  | '.' :: '.' :: _ => true
  | _ :: rest => containsDotDot rest
  | [] => false

/-- Environment of storage.get_artifact_path: whether the job output
directory exists, the Path.resolve function on full path strings (an
arbitrary map, standing for canonicalization with possible symlinks; on a
filesystem without symlinks it is lexical normalization), the regular-file
test on resolved paths and the resolved output directory string. -/
structure ArtifactFS where
  odExists : Bool
  resolveFn : List Char → List Char
  isFile : List Char → Bool
  odResolved : List Char

/-- storage.get_artifact_path: reject an empty filename or one containing
"..", "/" or a backslash; reject when the output directory is missing;
resolve the joined path and reject when the resolved string does not start
with the resolved output directory string; return the path when it is a
regular file. -/
def get_artifact_path (fs : ArtifactFS) (odPath filename : List Char) : Option (List Char) :=
  if filename = [] ∨ containsDotDot filename ∨ filename.contains '/' ∨ filename.contains '\\' then
    none
  else if ¬ fs.odExists then none
  else if ¬ fs.odResolved.isPrefixOf (fs.resolveFn (odPath ++ '/' :: filename)) then none
  else if fs.isFile (fs.resolveFn (odPath ++ '/' :: filename)) then
    some (fs.resolveFn (odPath ++ '/' :: filename))
  else none

/-- Response of the POST /extract/{job_id} endpoint, by case: 404 when the
upload is missing, the "Extraction already in progress" summary, or the
"Extraction started" summary. -/
inductive ExtractResp where
  | notFound
  | alreadyInProgress
  | started
deriving DecidableEq, Repr

/-- Side effects of routes_extract.extract_job in order: persisting the
processing config, writing the initial extracting metadata record and
starting the background worker thread. -/
inductive ReqEv where
  | wroteProcessingConfig
  | wroteExtractingMetadata
  | startedWorker
deriving DecidableEq, Repr

/-- routes_extract.extract_job: 404 when no upload exists; under one lock
acquisition, return the already-in-progress summary leaving the guard and
the world untouched when job_id is in the guard, else insert job_id; then
write the processing config, write the extracting metadata and start the
background thread.  Returns the response, the new guard and the events. -/
def extract_job (jobId : String) (uploadExists : Bool) (guard : List String) :
    ExtractResp × List String × List ReqEv :=
  if ¬ uploadExists then (.notFound, guard, [])
  else if jobId ∈ guard then (.alreadyInProgress, guard, [])
  else (.started, jobId :: guard,
    [.wroteProcessingConfig, .wroteExtractingMetadata, .startedWorker])

/-- Outcome of routes_extract._run_extract_subprocess as seen by the
supervisor: subprocess.run returned with an exit code (it does not raise
on a non-zero code), raised TimeoutExpired, or raised another exception. -/
inductive SubprocOutcome where
  | ret (code : Int)
  | timeoutExpired
  | exc (msg : String)

/-- Summary of a JobMetadata record written by the supervisor: status,
stats entries and error string. -/
structure MetaW where
  status : String
  stats : List (String × String)
  error : Option String
deriving DecidableEq, Repr

/-- Environment of routes_extract._run_extraction_background: the
subprocess outcome, the try_placeholder_fallback result (that helper
catches its own exceptions), the outcomes of list_artifacts and
write_metadata (each called at most once per run; an error value means the
call raises), the readable metadata record status if any (read_metadata
catches its own exceptions) and whether the output directory holds a
document.md or document_structured.json file. -/
structure SupEnv where
  subproc : SubprocOutcome
  fallbackOk : Bool
  listArtifactsRes : Except String (List String)
  writeMetadataRes : Except String Unit
  readMetadataStatus : Option String
  hasOutputDoc : Bool

/-- Observable events of one supervisor run, in order. -/
inductive SupEv where
  | fallbackAttempted (ok : Bool)
  | wroteMetadata (m : MetaW)
  | releasedGuard
deriving DecidableEq, Repr

/-- Test for the guard-release event. -/
def SupEv.isRelease : SupEv → Bool
  | .releasedGuard => true
  | _ => false

/-- Test for a fallback-attempt event. -/
def SupEv.isFallbackAttempt : SupEv → Bool
  | .fallbackAttempted _ => true
  | _ => false

/-- Test for a metadata-write event. -/
def SupEv.isWroteMetadata : SupEv → Bool
  | .wroteMetadata _ => true
  | _ => false

/-- routes_extract._run_extraction_background except-branches (lines 50 to
115): attempt the placeholder fallback; on success write completed
metadata with fallback stats, else write failed metadata with the error
message; in either case list_artifacts runs before the write and an
exception from it or from write_metadata propagates, skipping the guard
release; otherwise discard job_id from the guard and return. -/
def crashPath (env : SupEnv) (errMsg : String) : Except String Unit × List SupEv :=
  if env.fallbackOk then
    match env.listArtifactsRes with
    | .error e => (.error e, [.fallbackAttempted true])
    | .ok _ =>
      match env.writeMetadataRes with
      | .error e => (.error e, [.fallbackAttempted true])
      | .ok _ =>
        (.ok (), [.fallbackAttempted true,
          .wroteMetadata ⟨"completed", [("fallback", "true"), ("num_chunks", "0")], none⟩,
          .releasedGuard])
  else
    match env.listArtifactsRes with
    | .error e => (.error e, [.fallbackAttempted false])
    | .ok _ =>
      match env.writeMetadataRes with
      | .error e => (.error e, [.fallbackAttempted false])
      | .ok _ =>
        (.ok (), [.fallbackAttempted false,
          .wroteMetadata ⟨"failed", [], some errMsg⟩,
          .releasedGuard])

/-- routes_extract._run_extraction_background lines 117 to 153, reached
whenever the subprocess call returns without raising, whatever the exit
code: list artifacts, read any metadata record, and take the presence of
an output document or of any readable record as success evidence; write a
default completed record only when no record is readable; write a failed
record only when there is neither output nor a record; then release. -/
def successPath (env : SupEnv) : Except String Unit × List SupEv :=
  match env.listArtifactsRes with
  | .error e => (.error e, [])
  | .ok _ =>
    let hasOutput := env.hasOutputDoc || env.readMetadataStatus.isSome
    if hasOutput then
      match env.readMetadataStatus with
      | some _ => (.ok (), [.releasedGuard])
      | none =>
        match env.writeMetadataRes with
        | .error e => (.error e, [])
        | .ok _ => (.ok (), [.wroteMetadata ⟨"completed", [], none⟩, .releasedGuard])
    else
      match env.writeMetadataRes with
      | .error e => (.error e, [])
      | .ok _ =>
        (.ok (), [.wroteMetadata
          ⟨"failed", [], some "Extraction failed. Check docker logs Docling for details."⟩,
          .releasedGuard])

/-- routes_extract._run_extraction_background: dispatch on the subprocess
outcome.  The source binds the returned exit code to exit_code on line 49
and never reads it again, so a plain return takes the success path for
every exit code; TimeoutExpired and other exceptions take the two
fallback branches. -/
def run_extraction_background (env : SupEnv) : Except String Unit × List SupEv :=
  match env.subproc with
  | .ret _ => successPath env
  | .timeoutExpired => crashPath env "Extraction timed out"
  | .exc e => crashPath env e

/-- Window text of a paragraph buffer: the stripped blank-line join. -/
def paraJoin (ps : List (List Char)) : List Char :=
  pyStrip (joinBlank ps)

/-- Paragraph-level image of the windower fold state: identical to
WindowState except that each emitted window is kept as its paragraph list
instead of its joined text. -/
structure WindowStateP where
  windows : List (List (List Char))
  current : List (List Char)
  currentTokens : Nat
deriving DecidableEq, Repr

/-- Paragraph-level image of emitWindow: append the paragraph buffer under
the same condition under which emitWindow appends its joined text. -/
def emitWindowP (windows : List (List (List Char))) (current : List (List Char)) :
    List (List (List Char)) :=
  if pyStrip (joinBlank current) = [] then windows else windows ++ [current]

/-- Paragraph-level image of windowStep. -/
def windowStepP (target overlap : Nat) (st : WindowStateP) (para : List Char) : WindowStateP :=
  if pyStrip para = [] then st
  else
    let pt := approx_tokens para
    let st1 :=
      if target < st.currentTokens + pt ∧ st.current ≠ [] then
        let seed := overlapSeed overlap st.current
        { windows := emitWindowP st.windows st.current
          current := seed
          currentTokens := tokensSum seed }
      else st
    { st1 with current := st1.current ++ [para], currentTokens := st1.currentTokens + pt }

/-- Paragraph-level image of split_to_token_windows: the same windows, as
paragraph lists; a sub-budget text counts as the single-paragraph buffer
holding the whole text. -/
def windowParas (text : List Char) (target overlap : Nat) : List (List (List Char)) :=
  if text = [] ∨ pyStrip text = [] then []
  else if approx_tokens text ≤ target then
    if pyStrip text = [] then [] else [[text]]
  else
    let st := (pyBlankSplit text).foldl (windowStepP target overlap) ⟨[], [], 0⟩
    if st.current = [] then st.windows else emitWindowP st.windows st.current

/-- Test whether some paragraph among the last k paragraphs of w1 also
occurs among the paragraphs of w2. -/
def sharesTailPara (k : Nat) (w1 w2 : List Char) : Bool :=
  let ps1 := pyBlankSplit w1
  (ps1.drop (ps1.length - k)).any fun p => (pyBlankSplit w2).contains p

/-- Three blank-line separated paragraphs of 36 characters (9 tokens)
each: input of the C4 counterexample. -/
def c4Text : List Char :=
  joinBlank [List.replicate 36 'a', List.replicate 36 'b', List.replicate 36 'c']

/-- Witness input for the C4 bound: three 16-character (4-token)
paragraphs. -/
def c4WitnessText : List Char :=
  joinBlank [List.replicate 16 'a', List.replicate 16 'b', List.replicate 16 'c']

/-- Overlap scenario input for C5: 500 paragraphs "A" joined by blank
lines. -/
def c5Text : List Char :=
  joinBlank (List.replicate 500 ['A'])

/-- Header scenario input for C6. -/
def c6Text : List Char :=
  "# Intro\n\nFirst paragraph.\n\n## Part 2\n\nSecond.".toList

/-- Header-less scenario input for C7. -/
def c7ScenarioMd : List Char :=
  "First paragraph.\n\nSecond paragraph.\n\nThird.".toList

/-- Supervisor environment of the C1 counterexample: the subprocess times
out, the placeholder fallback succeeds, list_artifacts returns, but
write_metadata raises. -/
def c1CexEnv : SupEnv :=
  ⟨.timeoutExpired, true, .ok [], .error "disk full", some "extracting", false⟩

/-- Supervisor environment of the C3 failing input: the worker exits with
code 1 (for example after being OOM-killed) without having produced any
output document; only the pre-written extracting record is readable, and
the placeholder fallback would succeed if attempted. -/
def c3FailEnv : SupEnv :=
  ⟨.ret 1, true, .ok [], .ok (), some "extracting", false⟩

/-- Filesystem of the C10 counterexample: the single artifact name is a
symlink whose resolved target lies outside the job output directory but
extends its path string without a separator. -/
def c10CexFS : ArtifactFS :=
  ⟨true, fun _ => "/data/outputs/job1_evil/secret".toList, fun _ => true,
    "/data/outputs/job1".toList⟩

/-- Filesystem of the C10 witness: resolution is the identity and every
path is a regular file. -/
def c10WitnessFS : ArtifactFS :=
  ⟨true, fun s => s, fun _ => true, "/o/j".toList⟩

/-- Window text shared by every window of the C5 scenario: 50 paragraphs
"A" joined by blank lines. -/
def c5Window : List Char :=
  joinBlank (List.replicate 50 ['A'])

deriving instance DecidableEq for Except

theorem emitWindow_eq_append (ws : List (List Char)) (c : List (List Char)) :
    emitWindow ws c = ws ++ emitWindow [] c := by
  unfold emitWindow
  by_cases h : pyStrip (joinBlank c) = [] <;> simp [h]

theorem windowStep_passive (t o : Nat) (ws c : List (List Char)) (n : Nat) (p : List Char) :
    windowStep t o ⟨ws, c, n⟩ p =
      ⟨ws ++ (windowStep t o ⟨[], c, n⟩ p).windows,
        (windowStep t o ⟨[], c, n⟩ p).current,
        (windowStep t o ⟨[], c, n⟩ p).currentTokens⟩ := by
  unfold windowStep
  by_cases hp : pyStrip p = []
  · simp [hp]
  · by_cases hc : t < n + approx_tokens p ∧ c ≠ []
    · simp only [hp, if_false, hc, if_true, if_neg, ite_true]
      simp [hp, hc, emitWindow_eq_append ws c]
    · simp [hp, hc]

theorem foldl_windowStep_passive (t o : Nat) (ps : List (List Char)) :
    ∀ (ws c : List (List Char)) (n : Nat),
      ps.foldl (windowStep t o) ⟨ws, c, n⟩ =
        ⟨ws ++ (ps.foldl (windowStep t o) ⟨[], c, n⟩).windows,
          (ps.foldl (windowStep t o) ⟨[], c, n⟩).current,
          (ps.foldl (windowStep t o) ⟨[], c, n⟩).currentTokens⟩ := by
  induction ps with
  | nil => intro ws c n; simp
  | cons p ps ih =>
    intro ws c n
    simp only [List.foldl_cons]
    rw [windowStep_passive t o ws c n p]
    rw [ih (ws ++ (windowStep t o ⟨[], c, n⟩ p).windows)
      (windowStep t o ⟨[], c, n⟩ p).current (windowStep t o ⟨[], c, n⟩ p).currentTokens]
    rw [show windowStep t o ⟨[], c, n⟩ p =
      ⟨(windowStep t o ⟨[], c, n⟩ p).windows, (windowStep t o ⟨[], c, n⟩ p).current,
        (windowStep t o ⟨[], c, n⟩ p).currentTokens⟩ from rfl]
    rw [ih (windowStep t o ⟨[], c, n⟩ p).windows
      (windowStep t o ⟨[], c, n⟩ p).current (windowStep t o ⟨[], c, n⟩ p).currentTokens]
    simp [List.append_assoc]

theorem c5_block (ws : List (List Char)) :
    (List.replicate 45 (['A'] : List Char)).foldl (windowStep 50 5)
        ⟨ws, List.replicate 50 ['A'], 50⟩ =
      ⟨ws ++ [c5Window], List.replicate 50 ['A'], 50⟩ := by
  rw [foldl_windowStep_passive]
  rw [show (List.replicate 45 (['A'] : List Char)).foldl (windowStep 50 5)
      ⟨[], List.replicate 50 ['A'], 50⟩ =
      ⟨[c5Window], List.replicate 50 ['A'], 50⟩ from by decide]

theorem c5_blocks (k : Nat) :
    ∀ ws : List (List Char),
      (List.replicate (45 * k) (['A'] : List Char)).foldl (windowStep 50 5)
          ⟨ws, List.replicate 50 ['A'], 50⟩ =
        ⟨ws ++ List.replicate k c5Window, List.replicate 50 ['A'], 50⟩ := by
  induction k with
  | zero => intro ws; simp
  | succ k ih =>
    intro ws
    rw [show 45 * (k + 1) = 45 + 45 * k by ring, List.replicate_add, List.foldl_append,
      c5_block, ih, List.append_assoc]
    rw [show ([c5Window] ++ List.replicate k c5Window) = List.replicate (k + 1) c5Window from rfl]

theorem c5_windows_eq :
    split_to_token_windows c5Text 50 5 = List.replicate 11 c5Window := by
  have hsplit : pyBlankSplit c5Text = List.replicate 500 (['A'] : List Char) := by decide
  unfold split_to_token_windows
  rw [if_neg (by decide), if_neg (by decide)]
  rw [hsplit]
  rw [show List.replicate 500 (['A'] : List Char) =
    List.replicate 50 ['A'] ++ List.replicate (45 * 10) ['A'] from by
      rw [← List.replicate_add]]
  rw [List.foldl_append]
  rw [show (List.replicate 50 (['A'] : List Char)).foldl (windowStep 50 5) ⟨[], [], 0⟩ =
    ⟨[], List.replicate 50 ['A'], 50⟩ from by decide]
  rw [c5_blocks 10 []]
  rw [if_neg (by decide)]
  decide

/-- C5: the windower emits the buffer before a paragraph that would push
the tally over target_tokens, reseeds from the end of the emitted buffer
until the overlap budget is met and resets the tally to the seed sum (the
definitions windowStep, overlapSeed and seedAux embed exactly this); in
particular for target 50, overlap 5 and 500 paragraphs "A" joined by
blank lines it produces at least 2 windows and every window after the
first shares a paragraph with the last five paragraphs of the previous
window. -/
theorem c5_overlap_windows :
    2 ≤ (split_to_token_windows c5Text 50 5).length ∧
    ((split_to_token_windows c5Text 50 5).zip
        (split_to_token_windows c5Text 50 5).tail).all
      (fun q => sharesTailPara 5 q.1 q.2) = true := by
  rw [c5_windows_eq]
  decide

/-- C6: the section splitter flushes the previous buffer on each header
line, pops stack entries with level at least the new level, pushes the new
pair and labels sections with the stack titles joined by " > "; on the
scenario input it yields at least two sections whose paths are "Intro"
and "Intro > Part 2". -/
theorem c6_section_paths :
    2 ≤ (iter_sections c6Text).length ∧
    (iter_sections c6Text).map Prod.fst = ["Intro".toList, "Intro > Part 2".toList] := by
  decide

/-- C8 counterexample: on the filename ".hidden.txt" the source maps the
stem to "document" because it starts with a dot, while the pipeline
described by the claim keeps ".hidden", so the claimed derivation is not
the one implemented. -/
theorem c8_sanitize_prefix_counterexample :
    sanitize_stem ".hidden.txt".toList = "document".toList ∧
    specSanitizeClaim ".hidden.txt".toList = ".hidden".toList ∧
    sanitize_stem ".hidden.txt".toList ≠ specSanitizeClaim ".hidden.txt".toList := by
  decide

/-- C8 amended: the prefix is the whitespace-stripped, extension-stripped
stem with every character outside [A-Za-z0-9._-] replaced by an
underscore, underscore runs collapsed, edge underscores stripped and the
result truncated to 80 characters; a stem that is empty or starts with a
dot, and a result with no alphanumeric character, map to "document"; the
two scenario filenames map to "Hydraulics_Manual_v3" and "document". -/
theorem c8_sanitize_prefix_amended :
    (∀ fn : List Char, sanitize_stem fn = specSanitizeAmended fn) ∧
    sanitize_stem "Hydraulics Manual v3.pdf".toList = "Hydraulics_Manual_v3".toList ∧
    sanitize_stem "...pdf".toList = "document".toList := by
  refine ⟨fun fn => ?_, by decide, by decide⟩
  unfold sanitize_stem specSanitizeAmended
  have hmap : ∀ stem : List Char,
      ((stem.map fun c => if c = ' ' then '_' else c).map
        fun c => if isAllowedStemChar c then c else '_') =
      stem.map fun c => if isAllowedStemChar c then c else '_' := by
    intro stem
    rw [List.map_map]
    refine List.map_congr_left fun c _ => ?_
    by_cases hc : c = ' '
    · subst hc; rfl
    · simp [Function.comp, hc]
  simp only [hmap]

/-- C9: the windower returns the empty list on every input that is empty
or whitespace-only, for all token budgets. -/
theorem c9_ws_only_no_windows (text : List Char) (target overlap : Nat)
    (h : pyStrip text = []) :
    split_to_token_windows text target overlap = [] := by
  unfold split_to_token_windows
  rw [if_pos (Or.inr h)]

/-- Witness for C9 at a concrete whitespace-only input. -/
theorem c9_ws_only_no_windows_witness :
    pyStrip "  \n\t ".toList = [] ∧
    split_to_token_windows "  \n\t ".toList 7 3 = [] :=
  ⟨by decide, c9_ws_only_no_windows _ 7 3 (by decide)⟩

/-- C2: under the single guarded section, a request for a job already in
the guard returns the already-in-progress response and performs no write
and no worker start, leaving the guard unchanged; a request for a fresh
job inserts it and performs the config write, the metadata write and the
worker start, and a second request before release then returns
already-in-progress with no effects, so at most one attempt is started. -/
theorem c2_dedup_guard (jobId : String) (guard : List String) :
    (jobId ∈ guard →
      extract_job jobId true guard = (.alreadyInProgress, guard, [])) ∧
    (jobId ∉ guard →
      extract_job jobId true guard =
        (.started, jobId :: guard,
          [.wroteProcessingConfig, .wroteExtractingMetadata, .startedWorker]) ∧
      extract_job jobId true (jobId :: guard) =
        (.alreadyInProgress, jobId :: guard, [])) := by
  constructor
  · intro h
    simp [extract_job, h]
  · intro h
    constructor
    · simp [extract_job, h]
    · simp [extract_job]

/-- Witness for C2 at a concrete job and guard. -/
theorem c2_dedup_guard_witness :
    extract_job "job-1" true [] =
      (.started, ["job-1"],
        [.wroteProcessingConfig, .wroteExtractingMetadata, .startedWorker]) ∧
    extract_job "job-1" true ["job-1"] = (.alreadyInProgress, ["job-1"], []) :=
  ⟨((c2_dedup_guard "job-1" []).2 (by simp)).1,
    (c2_dedup_guard "job-1" ["job-1"]).1 (by simp)⟩

/-- C1 counterexample: when the subprocess times out, the fallback
succeeds and write_metadata raises, the routine exits by exception with
no guard release at all, so the release is not performed exactly once on
every exit path. -/
theorem c1_guard_release_counterexample :
    (run_extraction_background c1CexEnv).2.countP SupEv.isRelease = 0 ∧
    (run_extraction_background c1CexEnv).1 = Except.error "disk full" := by
  decide

/-- C1 amended: on every exit path on which the list_artifacts and
write_metadata calls the routine reaches return normally — worker return
with any exit code, timeout, or exception — the routine returns normally
and removes the job_id from the guard exactly once, the removal being the
last observable event, after every metadata write the routine performs
(on the normal-return path it writes nothing when a metadata record is
readable, writes a default completed record when output documents are
detected without a readable record, and writes a failed record when
neither is present); whenever the routine instead exits by exception —
always one propagated from list_artifacts or write_metadata — it
releases the guard zero times and writes no metadata. -/
theorem c1_guard_release_amended (env : SupEnv) :
    (∀ arts : List String, env.listArtifactsRes = Except.ok arts →
      env.writeMetadataRes = Except.ok () →
      (run_extraction_background env).1 = Except.ok () ∧
      (run_extraction_background env).2.countP SupEv.isRelease = 1 ∧
      (run_extraction_background env).2.getLast? = some SupEv.releasedGuard) ∧
    (∀ e : String, (run_extraction_background env).1 = Except.error e →
      (run_extraction_background env).2.countP SupEv.isRelease = 0 ∧
      (run_extraction_background env).2.countP SupEv.isWroteMetadata = 0 ∧
      (env.listArtifactsRes = Except.error e ∨
        env.writeMetadataRes = Except.error e)) := by
  obtain ⟨sp, fb, la, wm, rm, ho⟩ := env
  constructor
  · intro arts hl hw
    simp only at hl hw
    subst hl
    subst hw
    cases sp <;> cases fb <;> cases rm <;> cases ho <;>
      simp [run_extraction_background, successPath, crashPath,
        List.countP, List.countP.go, SupEv.isRelease, List.getLast?]
  · intro e he
    cases sp <;> cases fb <;> cases la <;> cases wm <;> cases rm <;> cases ho <;>
      simp_all [run_extraction_background, successPath, crashPath,
        List.countP, List.countP.go, SupEv.isRelease, SupEv.isWroteMetadata]

/-- Witness for C1: the normal-helpers conjunct at a concrete environment
that performs the default completed write before releasing, and the
exceptional conjunct at the environment whose write_metadata raises. -/
theorem c1_guard_release_witness :
    ((run_extraction_background ⟨.ret 0, true, .ok [], .ok (), none, true⟩).1 =
        Except.ok () ∧
      (run_extraction_background
        ⟨.ret 0, true, .ok [], .ok (), none, true⟩).2.countP SupEv.isRelease = 1 ∧
      (run_extraction_background
        ⟨.ret 0, true, .ok [], .ok (), none, true⟩).2.getLast? =
        some SupEv.releasedGuard) ∧
    ((run_extraction_background c1CexEnv).2.countP SupEv.isRelease = 0 ∧
      (run_extraction_background c1CexEnv).2.countP SupEv.isWroteMetadata = 0 ∧
      (c1CexEnv.listArtifactsRes = Except.error "disk full" ∨
        c1CexEnv.writeMetadataRes = Except.error "disk full")) :=
  ⟨(c1_guard_release_amended ⟨.ret 0, true, .ok [], .ok (), none, true⟩).1 [] rfl rfl,
    (c1_guard_release_amended c1CexEnv).2 "disk full" rfl⟩

/-- C3 evaluation at the failing input: the worker exits with code 1
without output, yet the supervisor attempts no fallback and writes no
metadata at all, returning normally after releasing the guard; the claim
and the spec require a fallback attempt on any non-zero exit. -/
theorem c3_nonzero_exit_no_fallback :
    (run_extraction_background c3FailEnv).1 = Except.ok () ∧
    (run_extraction_background c3FailEnv).2.countP SupEv.isFallbackAttempt = 0 ∧
    (run_extraction_background c3FailEnv).2.countP SupEv.isWroteMetadata = 0 := by
  decide

/-- C10 counterexample: with a symlinked artifact resolving to a path
outside the job output directory whose string extends the directory
string without a separator, get_artifact_path returns that outside path,
so a non-None result need not lie inside the directory. -/
theorem c10_artifact_path_counterexample :
    get_artifact_path c10CexFS "/data/outputs/job1".toList "link".toList =
      some "/data/outputs/job1_evil/secret".toList ∧
    ("/data/outputs/job1/".toList).isPrefixOf "/data/outputs/job1_evil/secret".toList =
      false := by
  decide

/-- C10 amended: get_artifact_path returns None when the filename is
empty or contains "..", "/" or a backslash; any non-None result is the
resolved joined path, is a regular file, and has the resolved output
directory string as a string prefix (string-prefix containment, not true
directory containment). -/
theorem c10_artifact_path_amended (fs : ArtifactFS) (odPath filename : List Char) :
    ((filename = [] ∨ containsDotDot filename = true ∨
        filename.contains '/' = true ∨ filename.contains '\\' = true) →
      get_artifact_path fs odPath filename = none) ∧
    (∀ p, get_artifact_path fs odPath filename = some p →
      fs.isFile p = true ∧ fs.odResolved.isPrefixOf p = true ∧
      p = fs.resolveFn (odPath ++ '/' :: filename)) := by
  constructor
  · intro h
    unfold get_artifact_path
    rw [if_pos h]
  · intro p hp
    unfold get_artifact_path at hp
    split at hp
    · exact absurd hp (by simp)
    · split at hp
      · exact absurd hp (by simp)
      · split at hp
        · exact absurd hp (by simp)
        · split at hp
          · rename_i hbad hex hpre hfile
            refine ⟨?_, ?_, ?_⟩
            · injection hp with hp'
              rw [← hp']
              exact hfile
            · injection hp with hp'
              rw [← hp']
              simpa using hpre
            · injection hp with hp'
              exact hp'.symm
          · exact absurd hp (by simp)

/-- Witness for C10 at a concrete filesystem where resolution is the
identity. -/
theorem c10_artifact_path_witness :
    get_artifact_path c10WitnessFS "/o/j".toList "a.md".toList =
      some "/o/j/a.md".toList ∧
    (c10WitnessFS.isFile "/o/j/a.md".toList = true ∧
      c10WitnessFS.odResolved.isPrefixOf "/o/j/a.md".toList = true ∧
      "/o/j/a.md".toList = c10WitnessFS.resolveFn ("/o/j".toList ++ '/' :: "a.md".toList)) :=
  ⟨by decide,
    (c10_artifact_path_amended c10WitnessFS "/o/j".toList "a.md".toList).2
      "/o/j/a.md".toList (by decide)⟩

/-- C4 counterexample: for target 10 and overlap 9 (overlap below target)
on three 36-character paragraphs, the second returned window consists of
two paragraphs of 9 tokens each (neither exceeding the target alone), yet
its token estimate is 19 and even its per-paragraph token sum is 18, far
above the target, so the claimed bound fails beyond any rounding slack. -/
theorem c4_window_token_bound_counterexample :
    (9 : Nat) < 10 ∧
    approx_tokens ((split_to_token_windows c4Text 10 9).getD 1 []) = 19 ∧
    tokensSum (pyBlankSplit ((split_to_token_windows c4Text 10 9).getD 1 [])) = 18 ∧
    (pyBlankSplit ((split_to_token_windows c4Text 10 9).getD 1 [])).length = 2 ∧
    (∀ p ∈ pyBlankSplit ((split_to_token_windows c4Text 10 9).getD 1 []),
      approx_tokens p ≤ 10) := by
  decide

theorem dropWhile_head_not {p : Char → Bool} :
    ∀ {l t : List Char} {c : Char}, l.dropWhile p = c :: t → p c = false := by
  intro l
  induction l with
  | nil => intro t c h; simp [List.dropWhile] at h
  | cons a l ih =>
    intro t c h
    rw [List.dropWhile_cons] at h
    by_cases ha : p a = true
    · exact ih (by simpa [ha] using h)
    · simp [ha] at h
      rw [← h.1]
      simpa using ha

theorem pyStrip_eq_nil_iff (l : List Char) :
    pyStrip l = [] ↔ l.all isPyWs = true := by
  unfold pyStrip
  constructor
  · intro h
    have h2 : (l.dropWhile isPyWs).reverse.dropWhile isPyWs = [] := by
      simpa using congrArg List.reverse h
    have h3 : ∀ x ∈ (l.dropWhile isPyWs).reverse, isPyWs x = true := by
      simpa [List.dropWhile_eq_nil_iff] using h2
    rw [List.all_eq_true]
    intro x hx
    rw [← List.takeWhile_append_dropWhile (p := isPyWs) (l := l)] at hx
    rcases List.mem_append.mp hx with hx | hx
    · exact List.mem_takeWhile_imp hx
    · exact h3 x (List.mem_reverse.mpr hx)
  · intro h
    have : l.dropWhile isPyWs = [] := by
      rw [List.dropWhile_eq_nil_iff]
      intro x hx
      exact (List.all_eq_true.mp h) x hx
    simp [this]

theorem not_ws_mem_pyStrip {l : List Char} (h : ¬ l.all isPyWs = true) :
    ∃ c ∈ pyStrip l, isPyWs c = false := by
  have hne : l.dropWhile isPyWs ≠ [] := by
    intro hnil
    exact h (by
      rw [List.all_eq_true]
      intro x hx
      rw [← List.takeWhile_append_dropWhile (p := isPyWs) (l := l), hnil] at hx
      exact List.mem_takeWhile_imp (by simpa using hx))
  obtain ⟨c, t, hct⟩ := List.exists_cons_of_ne_nil hne
  have hc : isPyWs c = false := dropWhile_head_not hct
  refine ⟨c, ?_, hc⟩
  unfold pyStrip
  rw [hct]
  rw [List.mem_reverse]
  have : (c :: t).reverse = t.reverse ++ [c] := by simp
  rw [this, List.dropWhile_append]
  by_cases he : (t.reverse.dropWhile isPyWs).isEmpty
  · simp [he, List.dropWhile_cons, hc]
  · simp [he]

theorem pyStrip_ne_nil_of_mem {c : Char} {l : List Char}
    (hc : c ∈ l) (hw : isPyWs c = false) : pyStrip l ≠ [] := by
  intro h
  rw [pyStrip_eq_nil_iff, List.all_eq_true] at h
  have := h c hc
  rw [hw] at this
  exact Bool.false_ne_true this

theorem pyStrip_pyStrip_ne_nil {l : List Char} (h : pyStrip l ≠ []) :
    pyStrip (pyStrip l) ≠ [] := by
  have hall : ¬ l.all isPyWs = true := fun ha => h ((pyStrip_eq_nil_iff l).mpr ha)
  obtain ⟨c, hc, hw⟩ := not_ws_mem_pyStrip hall
  exact pyStrip_ne_nil_of_mem hc hw

theorem mem_intersperse_of_mem {α : Type} (sep : List α) :
    ∀ {ps : List (List α)} {p : List α}, p ∈ ps → p ∈ ps.intersperse sep := by
  intro ps
  induction ps with
  | nil => intro p h; simp at h
  | cons x t ih =>
    intro p h
    cases t with
    | nil => simpa using h
    | cons y t2 =>
      rw [List.intersperse_cons_cons]
      rcases List.mem_cons.mp h with h | h
      · subst h
        exact List.mem_cons_self _ _
      · exact List.mem_cons_of_mem _ (List.mem_cons_of_mem _ (ih h))

theorem mem_joinBlank_of_mem {c : Char} {p : List Char} {ps : List (List Char)}
    (hc : c ∈ p) (hp : p ∈ ps) : c ∈ joinBlank ps := by
  unfold joinBlank List.intercalate
  rw [List.mem_join]
  exact ⟨p, mem_intersperse_of_mem _ hp, hc⟩

theorem pyStrip_joinBlank_ne_nil {ps : List (List Char)}
    (h : ∃ p ∈ ps, pyStrip p ≠ []) : pyStrip (joinBlank ps) ≠ [] := by
  obtain ⟨p, hp, hne⟩ := h
  have hall : ¬ p.all isPyWs = true := fun ha => hne ((pyStrip_eq_nil_iff p).mpr ha)
  obtain ⟨c, hc, hw⟩ := not_ws_mem_pyStrip hall
  have hcp : c ∈ p := by
    have : pyStrip p ⊆ p := by
      unfold pyStrip
      intro x hx
      rw [List.mem_reverse] at hx
      have hx2 := List.dropWhile_sublist (l := (p.dropWhile isPyWs).reverse) isPyWs
      have hx3 : x ∈ (p.dropWhile isPyWs).reverse := hx2.mem hx
      rw [List.mem_reverse] at hx3
      exact (List.dropWhile_sublist (l := p) isPyWs).mem hx3
    exact this hc
  exact pyStrip_ne_nil_of_mem (mem_joinBlank_of_mem hcp hp) hw

theorem blankSplitGo_all_ws :
    ∀ (cs cur wsbuf : List Char), wsbuf.all isPyWs = true →
      (∀ p ∈ blankSplitGo cs cur wsbuf, p.all isPyWs = true) →
      cs.all isPyWs = true ∧ cur.all isPyWs = true := by
  intro cs
  induction cs with
  | nil =>
    intro cur wsbuf hws hall
    refine ⟨rfl, ?_⟩
    unfold blankSplitGo at hall
    by_cases h2 : 2 ≤ wsbuf.count '\n'
    · have h3 := hall _ (by rw [if_pos h2]; exact List.mem_cons_self _ _)
      rw [List.all_eq_true] at h3
      rw [List.all_eq_true]
      exact fun x hx => h3 x (List.mem_append_left _ hx)
    · have h3 := hall _ (by rw [if_neg h2]; exact List.mem_cons_self _ _)
      rw [List.all_eq_true] at h3
      rw [List.all_eq_true]
      exact fun x hx => h3 x (List.mem_append_left _ hx)
  | cons c rest ih =>
    intro cur wsbuf hws hall
    unfold blankSplitGo at hall
    by_cases hc : isPyWs c = true
    · rw [if_pos hc] at hall
      have hws2 : (wsbuf ++ [c]).all isPyWs = true := by simp [hws, hc]
      have := ih cur (wsbuf ++ [c]) hws2 hall
      simp [hc, this.1, this.2]
    · rw [if_neg hc] at hall
      by_cases h2 : 2 ≤ wsbuf.count '\n'
      · rw [if_pos h2] at hall
        have hrec : ∀ p ∈ blankSplitGo rest (takeTrailingNonNl wsbuf ++ [c]) [],
            p.all isPyWs = true := fun p hp => hall p (List.mem_cons_of_mem _ hp)
        have h4 := (ih (takeTrailingNonNl wsbuf ++ [c]) [] rfl hrec).2
        rw [List.all_eq_true] at h4
        have hc2 : isPyWs c = true := h4 c (by simp)
        exact absurd hc2 hc
      · rw [if_neg h2] at hall
        have h4 := (ih (cur ++ wsbuf ++ [c]) [] rfl hall).2
        rw [List.all_eq_true] at h4
        have hc2 : isPyWs c = true := h4 c (by simp)
        exact absurd hc2 hc

theorem exists_non_ws_piece {text : List Char} (h : pyStrip text ≠ []) :
    ∃ q ∈ pyBlankSplit text, pyStrip q ≠ [] := by
  by_contra hcon
  push_neg at hcon
  have hall : ∀ p ∈ pyBlankSplit text, p.all isPyWs = true := fun p hp =>
    (pyStrip_eq_nil_iff p).mp (hcon p hp)
  have := blankSplitGo_all_ws text [] [] rfl hall
  exact h ((pyStrip_eq_nil_iff text).mpr this.1)

/-- Goodness of a windower fold state: a window has been emitted or the
buffer holds a paragraph that does not strip to nothing. -/
def GoodW (st : WindowState) : Prop :=
  st.windows ≠ [] ∨ ∃ p ∈ st.current, pyStrip p ≠ []

theorem goodW_step (t o : Nat) (st : WindowState) (para : List Char)
    (h : GoodW st) : GoodW (windowStep t o st para) := by
  unfold windowStep
  by_cases hp : pyStrip para = []
  · simpa [hp] using h
  · right
    refine ⟨para, ?_, hp⟩
    by_cases hc : t < st.currentTokens + approx_tokens para ∧ st.current ≠ [] <;>
      simp [hp, hc]

theorem goodW_step_new (t o : Nat) (st : WindowState) (para : List Char)
    (h : pyStrip para ≠ []) : GoodW (windowStep t o st para) := by
  unfold windowStep
  right
  refine ⟨para, ?_, h⟩
  by_cases hc : t < st.currentTokens + approx_tokens para ∧ st.current ≠ [] <;>
    simp [h, hc]

theorem goodW_foldl (t o : Nat) :
    ∀ (ps : List (List Char)) (st : WindowState),
      (∃ q ∈ ps, pyStrip q ≠ []) ∨ GoodW st →
      GoodW (ps.foldl (windowStep t o) st) := by
  intro ps
  induction ps with
  | nil =>
    intro st h
    rcases h with ⟨q, hq, _⟩ | h
    · simp at hq
    · simpa using h
  | cons q ps ih =>
    intro st h
    rw [List.foldl_cons]
    rcases h with ⟨r, hr, hrs⟩ | h
    · rcases List.mem_cons.mp hr with hr | hr
      · exact ih _ (Or.inr (goodW_step_new t o st q (hr ▸ hrs)))
      · exact ih _ (Or.inl ⟨r, hr, hrs⟩)
    · exact ih _ (Or.inr (goodW_step t o st q h))

theorem not_empty_or_ws_strip {text : List Char} (h : pyStrip text ≠ []) :
    ¬ (text = [] ∨ pyStrip text = []) := by
  rintro (rfl | hh)
  · exact h rfl
  · exact h hh

theorem split_windows_ne_nil {text : List Char} (t o : Nat)
    (h : pyStrip text ≠ []) : split_to_token_windows text t o ≠ [] := by
  unfold split_to_token_windows
  rw [if_neg (not_empty_or_ws_strip h)]
  by_cases hsmall : approx_tokens text ≤ t
  · rw [if_pos hsmall, if_neg h]
    simp
  · rw [if_neg hsmall]
    have hgood : GoodW ((pyBlankSplit text).foldl (windowStep t o) ⟨[], [], 0⟩) :=
      goodW_foldl t o _ _ (Or.inl (exists_non_ws_piece h))
    set st := (pyBlankSplit text).foldl (windowStep t o) ⟨[], [], 0⟩ with hst
    by_cases hcur : st.current = []
    · rw [if_pos hcur]
      rcases hgood with hg | ⟨p, hp, _⟩
      · exact hg
      · rw [hcur] at hp
        simp at hp
    · rw [if_neg hcur]
      unfold emitWindow
      rcases hgood with hg | hg
      · by_cases hw : pyStrip (joinBlank st.current) = [] <;> simp [hw, hg]
      · have : pyStrip (joinBlank st.current) ≠ [] := pyStrip_joinBlank_ne_nil hg
        simp [this]

theorem split_windows_strip_ne {text : List Char} {t o : Nat} :
    ∀ w ∈ split_to_token_windows text t o, pyStrip w ≠ [] := by
  have hstep : ∀ (st : WindowState) (para : List Char),
      (∀ w ∈ st.windows, pyStrip w ≠ []) →
      ∀ w ∈ (windowStep t o st para).windows, pyStrip w ≠ [] := by
    intro st para hinv w hw
    unfold windowStep at hw
    by_cases hp : pyStrip para = []
    · exact hinv w (by simpa [hp] using hw)
    · by_cases hc : t < st.currentTokens + approx_tokens para ∧ st.current ≠ []
      · simp only [hp, if_false, hc, if_true, ite_true, if_neg] at hw
        unfold emitWindow at hw
        by_cases he : pyStrip (joinBlank st.current) = []
        · exact hinv w (by simpa [hp, hc, he] using hw)
        · have hw2 : w ∈ st.windows ++ [pyStrip (joinBlank st.current)] := by
            simpa [hp, hc, he] using hw
          rcases List.mem_append.mp hw2 with hw3 | hw3
          · exact hinv w hw3
          · have : w = pyStrip (joinBlank st.current) := by simpa using hw3
            rw [this]
            exact pyStrip_pyStrip_ne_nil he
      · exact hinv w (by simpa [hp, hc] using hw)
  have hfold : ∀ (ps : List (List Char)) (st : WindowState),
      (∀ w ∈ st.windows, pyStrip w ≠ []) →
      ∀ w ∈ (ps.foldl (windowStep t o) st).windows, pyStrip w ≠ [] := by
    intro ps
    induction ps with
    | nil => intro st h; simpa using h
    | cons q ps ih =>
      intro st h
      rw [List.foldl_cons]
      exact ih _ (hstep st q h)
  intro w hw
  unfold split_to_token_windows at hw
  by_cases h0 : text = [] ∨ pyStrip text = []
  · simp [h0] at hw
  · rw [if_neg h0] at hw
    by_cases hsmall : approx_tokens text ≤ t
    · rw [if_pos hsmall] at hw
      have hne : pyStrip text ≠ [] := by
        intro hnil
        exact h0 (Or.inr hnil)
      rw [if_neg hne] at hw
      have : w = pyStrip text := by simpa using hw
      rw [this]
      exact pyStrip_pyStrip_ne_nil hne
    · rw [if_neg hsmall] at hw
      set st := (pyBlankSplit text).foldl (windowStep t o) ⟨[], [], 0⟩ with hst
      by_cases hcur : st.current = []
      · rw [if_pos hcur] at hw
        exact hfold _ _ (by simp) w hw
      · rw [if_neg hcur] at hw
        unfold emitWindow at hw
        by_cases he : pyStrip (joinBlank st.current) = []
        · rw [if_pos he] at hw
          exact hfold _ _ (by simp) w hw
        · rw [if_neg he] at hw
          rcases List.mem_append.mp hw with hw2 | hw2
          · exact hfold _ _ (by simp) w hw2
          · have : w = pyStrip (joinBlank st.current) := by simpa using hw2
            rw [this]
            exact pyStrip_pyStrip_ne_nil he

/-- C7: for every markdown that does not strip to nothing the chunk
writer emits at least one chunk, the fallback re-windowing the whole
document as one empty-path section when the section pass emits zero; on
the header-less scenario input with target 20 and overlap 5 the first
emitted chunk has an empty meta section. -/
theorem c7_nonempty_input_chunks (markdown docId : List Char) (target overlap : Nat)
    (h : pyStrip markdown ≠ []) :
    1 ≤ (generate_chunks_jsonl markdown docId target overlap).length ∧
    (generate_chunks_jsonl c7ScenarioMd "d1".toList 20 5).head?.map Chunk.metaSection =
      some [] := by
  refine ⟨?_, by decide⟩
  unfold generate_chunks_jsonl
  rw [List.length_mapIdx]
  by_cases hz : (sectionWindowPairs markdown target overlap).length = 0
  · rw [if_pos ⟨hz, h⟩]
    unfold fallbackPairs
    have hne : split_to_token_windows markdown target overlap ≠ [] :=
      split_windows_ne_nil target overlap h
    cases hwindows : split_to_token_windows markdown target overlap with
    | nil => exact absurd hwindows hne
    | cons w ws =>
      have hwstrip : pyStrip w ≠ [] :=
        split_windows_strip_ne w (hwindows ▸ List.mem_cons_self _ _)
      rw [List.filterMap_cons]
      simp only [if_neg hwstrip]
      simp
  · rw [if_neg fun hc => hz hc.1]
    omega

theorem c7_nonempty_input_chunks_witness :
    pyStrip c7ScenarioMd ≠ [] ∧
    1 ≤ (generate_chunks_jsonl c7ScenarioMd "d1".toList 20 5).length :=
  ⟨by decide, (c7_nonempty_input_chunks c7ScenarioMd "d1".toList 20 5 (by decide)).1⟩

theorem emitWindow_lockstep (wsP : List (List (List Char))) (c : List (List Char)) :
    emitWindow (wsP.map paraJoin) c = (emitWindowP wsP c).map paraJoin := by
  unfold emitWindow emitWindowP paraJoin
  by_cases h : pyStrip (joinBlank c) = [] <;> simp [h]

theorem windowStep_lockstep (t o : Nat) (stP : WindowStateP) (para : List Char) :
    windowStep t o ⟨stP.windows.map paraJoin, stP.current, stP.currentTokens⟩ para =
      ⟨(windowStepP t o stP para).windows.map paraJoin,
        (windowStepP t o stP para).current,
        (windowStepP t o stP para).currentTokens⟩ := by
  unfold windowStep windowStepP
  by_cases hp : pyStrip para = []
  · simp [hp]
  · by_cases hc : t < stP.currentTokens + approx_tokens para ∧ stP.current ≠ []
    · simp [hp, hc, emitWindow_lockstep]
    · simp [hp, hc]

theorem foldl_windowStep_lockstep (t o : Nat) (ps : List (List Char)) :
    ∀ stP : WindowStateP,
      ps.foldl (windowStep t o) ⟨stP.windows.map paraJoin, stP.current, stP.currentTokens⟩ =
        ⟨(ps.foldl (windowStepP t o) stP).windows.map paraJoin,
          (ps.foldl (windowStepP t o) stP).current,
          (ps.foldl (windowStepP t o) stP).currentTokens⟩ := by
  induction ps with
  | nil => intro stP; rfl
  | cons p ps ih =>
    intro stP
    rw [List.foldl_cons, List.foldl_cons, windowStep_lockstep]
    exact ih (windowStepP t o stP p)

theorem joinBlank_singleton (x : List Char) : joinBlank [x] = x := by
  simp [joinBlank, List.intercalate]

theorem split_windows_eq_map (text : List Char) (t o : Nat) :
    split_to_token_windows text t o = (windowParas text t o).map paraJoin := by
  unfold split_to_token_windows windowParas
  by_cases h0 : text = [] ∨ pyStrip text = []
  · simp [h0]
  · rw [if_neg h0, if_neg h0]
    by_cases hsmall : approx_tokens text ≤ t
    · rw [if_pos hsmall, if_pos hsmall]
      by_cases hstrip : pyStrip text = []
      · simp [hstrip]
      · rw [if_neg hstrip, if_neg hstrip]
        simp [paraJoin, joinBlank_singleton]
    · rw [if_neg hsmall, if_neg hsmall]
      have h := foldl_windowStep_lockstep t o (pyBlankSplit text) ⟨[], [], 0⟩
      simp only [List.map_nil] at h
      rw [h]
      set stP := (pyBlankSplit text).foldl (windowStepP t o) ⟨[], [], 0⟩ with hstP
      by_cases hcur : stP.current = []
      · simp [hcur]
      · simp [hcur, emitWindow_lockstep]

theorem windowStepP_eq_emit {t o : Nat} {st : WindowStateP} {para : List Char}
    (h1 : ¬ pyStrip para = [])
    (h2 : t < st.currentTokens + approx_tokens para ∧ st.current ≠ []) :
    windowStepP t o st para =
      ⟨emitWindowP st.windows st.current,
        overlapSeed o st.current ++ [para],
        tokensSum (overlapSeed o st.current) + approx_tokens para⟩ := by
  unfold windowStepP
  rw [if_neg h1]
  dsimp only
  rw [if_pos h2]

theorem windowStepP_eq_append {t o : Nat} {st : WindowStateP} {para : List Char}
    (h1 : ¬ pyStrip para = [])
    (h2 : ¬ (t < st.currentTokens + approx_tokens para ∧ st.current ≠ [])) :
    windowStepP t o st para =
      ⟨st.windows, st.current ++ [para], st.currentTokens + approx_tokens para⟩ := by
  unfold windowStepP
  rw [if_neg h1]
  dsimp only
  rw [if_neg h2]

theorem seedAux_subset (o : Nat) :
    ∀ (l : List (List Char)) (acc : Nat), seedAux o acc l ⊆ l := by
  intro l
  induction l with
  | nil => intro acc; simp [seedAux]
  | cons p rest ih =>
    intro acc
    unfold seedAux
    by_cases hc : o ≤ acc + approx_tokens p
    · rw [if_pos hc]
      intro x hx
      rcases List.mem_singleton.mp hx with rfl
      exact List.mem_cons_self _ _
    · rw [if_neg hc]
      intro x hx
      rcases List.mem_cons.mp hx with hx | hx
      · rw [hx]; exact List.mem_cons_self _ _
      · exact List.mem_cons_of_mem _ (ih (acc + approx_tokens p) hx)

theorem seedAux_sum_le {o m : Nat} :
    ∀ (l : List (List Char)) (acc : Nat), acc ≤ o - 1 →
      (∀ p ∈ l, approx_tokens p ≤ m) →
      tokensSum (seedAux o acc l) + acc ≤ (o - 1) + m := by
  intro l
  induction l with
  | nil =>
    intro acc hacc hm
    simp only [seedAux, tokensSum, List.map_nil, List.sum_nil]
    omega
  | cons p rest ih =>
    intro acc hacc hm
    unfold seedAux
    by_cases hc : o ≤ acc + approx_tokens p
    · rw [if_pos hc]
      have hpm := hm p (List.mem_cons_self _ _)
      simp only [tokensSum, List.map_cons, List.map_nil, List.sum_cons, List.sum_nil]
      omega
    · rw [if_neg hc]
      have hacc2 : acc + approx_tokens p ≤ o - 1 := by omega
      have hrec := ih (acc + approx_tokens p) hacc2
        (fun q hq => hm q (List.mem_cons_of_mem _ hq))
      simp only [tokensSum, List.map_cons, List.sum_cons] at hrec ⊢
      omega

theorem overlapSeed_sum_le {o m : Nat} {cur : List (List Char)}
    (hm : ∀ p ∈ cur, approx_tokens p ≤ m) :
    tokensSum (overlapSeed o cur) ≤ (o - 1) + m := by
  unfold overlapSeed
  have h1 : tokensSum (seedAux o 0 cur.reverse).reverse =
      tokensSum (seedAux o 0 cur.reverse) := by
    simp [tokensSum, List.sum_reverse]
  rw [h1]
  have := seedAux_sum_le (o := o) (m := m) cur.reverse 0 (by omega)
    (fun p hp => hm p (List.mem_reverse.mp hp))
  omega

theorem overlapSeed_subset (o : Nat) (cur : List (List Char)) :
    overlapSeed o cur ⊆ cur := by
  unfold overlapSeed
  intro x hx
  rw [List.mem_reverse] at hx
  exact List.mem_reverse.mp (seedAux_subset o cur.reverse 0 hx)

/-- Invariant of the paragraph-level windower fold under a per-paragraph
token bound: every emitted window has paragraph token sum at most the
target, the tally equals the buffer sum and stays at most the target, and
the buffer holds only source paragraphs. -/
def WBound (t : Nat) (paras : List (List Char)) (st : WindowStateP) : Prop :=
  (∀ ps ∈ st.windows, tokensSum ps ≤ t) ∧
  st.currentTokens = tokensSum st.current ∧
  st.currentTokens ≤ t ∧
  (∀ p ∈ st.current, p ∈ paras)

theorem windowStepP_bound {t o m : Nat} {paras : List (List Char)} {st : WindowStateP}
    {para : List Char}
    (hm : ∀ p ∈ paras, approx_tokens p ≤ m)
    (h2 : (o - 1) + m + m ≤ t)
    (hpara : para ∈ paras)
    (hWB : WBound t paras st) :
    WBound t paras (windowStepP t o st para) := by
  obtain ⟨hwins, htok, hle, hcur⟩ := hWB
  by_cases hp : pyStrip para = []
  · unfold windowStepP
    rw [if_pos hp]
    exact ⟨hwins, htok, hle, hcur⟩
  · by_cases hc : t < st.currentTokens + approx_tokens para ∧ st.current ≠ []
    · rw [windowStepP_eq_emit hp hc]
      have hmcur : ∀ p ∈ st.current, approx_tokens p ≤ m := fun p hp2 => hm p (hcur p hp2)
      have hseed : tokensSum (overlapSeed o st.current) ≤ (o - 1) + m :=
        overlapSeed_sum_le hmcur
      have hpm : approx_tokens para ≤ m := hm para hpara
      refine ⟨?_, ?_, ?_, ?_⟩
      · intro ps hps
        unfold emitWindowP at hps
        by_cases he : pyStrip (joinBlank st.current) = []
        · exact hwins ps (by simpa [he] using hps)
        · have hps2 : ps ∈ st.windows ∨ ps = st.current := by simpa [he] using hps
          rcases hps2 with h | h
          · exact hwins ps h
          · rw [h, ← htok]
            exact hle
      · simp [tokensSum]
      · simp only
        omega
      · intro p hp2
        rcases List.mem_append.mp hp2 with h | h
        · exact hcur p (overlapSeed_subset o st.current h)
        · rw [List.mem_singleton.mp h]
          exact hpara
    · rw [windowStepP_eq_append hp hc]
      have hpm : approx_tokens para ≤ m := hm para hpara
      refine ⟨hwins, ?_, ?_, ?_⟩
      · simp [tokensSum, htok]
      · simp only
        by_cases hcc : st.current = []
        · have h0 : st.currentTokens = 0 := by
            rw [htok, hcc]
            simp [tokensSum]
          omega
        · have hna : ¬ t < st.currentTokens + approx_tokens para :=
            fun hlt => hc ⟨hlt, hcc⟩
          omega
      · intro p hp2
        rcases List.mem_append.mp hp2 with h | h
        · exact hcur p h
        · rw [List.mem_singleton.mp h]
          exact hpara

theorem foldl_windowStepP_bound {t o m : Nat} {paras : List (List Char)}
    (hm : ∀ p ∈ paras, approx_tokens p ≤ m)
    (h2 : (o - 1) + m + m ≤ t) :
    ∀ (ps : List (List Char)) (st : WindowStateP),
      (∀ p ∈ ps, p ∈ paras) → WBound t paras st →
      WBound t paras (ps.foldl (windowStepP t o) st) := by
  intro ps
  induction ps with
  | nil => intro st _ hWB; simpa using hWB
  | cons p ps ih =>
    intro st hmem hWB
    rw [List.foldl_cons]
    exact ih _ (fun q hq => hmem q (List.mem_cons_of_mem _ hq))
      (windowStepP_bound hm h2 (hmem p (List.mem_cons_self _ _)) hWB)

/-- C4 amended: for budgets with overlap below target, each returned
window is exactly the trimmed blank-line join of a list of source
paragraphs (the windowParas image of the same fold), and provided every
blank-line-separated paragraph of the text has token estimate at most
(target - overlap) / 2, every window's per-paragraph token sum is at most
target_tokens; the joined window text itself can exceed the target only
through the inserted blank-line separators and rounding, and without the
paragraph-size bound windows can exceed the target even though no single
paragraph does. -/
theorem c4_window_token_bound_amended (text : List Char) (t o : Nat) (ho : o < t)
    (hp : ∀ p ∈ pyBlankSplit text, approx_tokens p ≤ (t - o) / 2) :
    split_to_token_windows text t o = (windowParas text t o).map paraJoin ∧
    ∀ ps ∈ windowParas text t o, tokensSum ps ≤ t := by
  refine ⟨split_windows_eq_map text t o, ?_⟩
  unfold windowParas
  by_cases h0 : text = [] ∨ pyStrip text = []
  · simp [h0]
  · rw [if_neg h0]
    by_cases hsmall : approx_tokens text ≤ t
    · rw [if_pos hsmall]
      by_cases hstrip : pyStrip text = []
      · simp [hstrip]
      · rw [if_neg hstrip]
        intro ps hps
        have hps2 : ps = [text] := by simpa using hps
        rw [hps2]
        simpa [tokensSum] using hsmall
    · rw [if_neg hsmall]
      have harith : (o - 1) + (t - o) / 2 + (t - o) / 2 ≤ t := by omega
      have hWB := foldl_windowStepP_bound hp harith
        (pyBlankSplit text) ⟨[], [], 0⟩ (fun p hp2 => hp2)
        ⟨by simp, by simp [tokensSum], Nat.zero_le t, by simp⟩
      set stP := (pyBlankSplit text).foldl (windowStepP t o) ⟨[], [], 0⟩ with hstP
      by_cases hcur : stP.current = []
      · rw [if_pos hcur]
        exact hWB.1
      · rw [if_neg hcur]
        intro ps hps
        unfold emitWindowP at hps
        by_cases he : pyStrip (joinBlank stP.current) = []
        · exact hWB.1 ps (by simpa [he] using hps)
        · have hps2 : ps ∈ stP.windows ∨ ps = stP.current := by simpa [he] using hps
          rcases hps2 with h | h
          · exact hWB.1 ps h
          · rw [h, ← hWB.2.1]
            exact hWB.2.2.1

/-- Witness for C4 at a concrete text of three 4-token paragraphs with
target 10 and overlap 2. -/
theorem c4_window_token_bound_witness :
    split_to_token_windows c4WitnessText 10 2 =
      (windowParas c4WitnessText 10 2).map paraJoin ∧
    ∀ ps ∈ windowParas c4WitnessText 10 2, tokensSum ps ≤ 10 :=
  c4_window_token_bound_amended c4WitnessText 10 2 (by decide) (by decide)
